import Mathlib

/-!
Verification development for the CFIS-Commons utilities: the conda launcher
(snapshot normalization, environment probing, reconciliation control flow),
the configuration manager, and the translation lookup.

Strings are embedded as `List Char`.  The Python string operations used by the
code (`str.splitlines`, `str.strip`, `str.lstrip`, `str.startswith`,
`str.count`, `in`) are given explicit executable models below, matching
CPython semantics for the character classes involved.
-/

/-- Line boundary characters recognised by Python `str.splitlines`
(LF, CR, VT, FF, FS, GS, RS, NEL, LINE SEPARATOR, PARAGRAPH SEPARATOR;
a CRLF pair counts as a single boundary and is handled in `splitlinesAux`). -/
def isLineBoundary (c : Char) : Bool :=
  c = '\n' || c = '\x0d' || c = '\x0b' || c = '\x0c' || c = '\x1c' || c = '\x1d' ||
  c = '\x1e' || c = '\x85' || c = '\u2028' || c = '\u2029'

/-- Whitespace characters stripped by Python `str.strip()` / `str.lstrip()`
(the characters for which `str.isspace()` holds). -/
def isPySpace (c : Char) : Bool :=
  c = ' ' || c = '\t' || isLineBoundary c || c = '\x1f' || c = '\xa0' ||
  c = '\u1680' || (0x2000 ≤ c.toNat && c.toNat ≤ 0x200a) || c = '\u202f' ||
  c = '\u205f' || c = '\u3000'

/-- Python `str.lstrip()`. -/
def pyLstrip (l : List Char) : List Char := l.dropWhile isPySpace

/-- Python `str.rstrip()`. -/
def pyRstrip (l : List Char) : List Char := (l.reverse.dropWhile isPySpace).reverse

/-- Python `str.strip()`. -/
def pyStrip (l : List Char) : List Char := pyRstrip (pyLstrip l)

/-- Python `s.startswith(p)`: first argument is the string, second the pattern. -/
def pyStartswith : List Char → List Char → Bool
  | _, [] => true
  | [], _ :: _ => false
  | c :: s, d :: p => if c = d then pyStartswith s p else false

/-- Python `s.count(c)` for a single-character needle. -/
def countEq : List Char → Char → Nat
  | [], _ => 0
  | c :: rest, t => (if c = t then 1 else 0) + countEq rest t

/-- Worker for `splitlines`: `acc` holds the current (reversed) line and
`prevCR` records whether the previous character was a carriage return whose
line was already closed (so that a directly following `'\n'` is part of the
same CRLF boundary and is skipped).  A trailing boundary produces no final
empty line: at the end of input the pending line is emitted only when it is
nonempty. -/
def splitlinesGo : List Char → List Char → Bool → List (List Char)
  | [], acc, _ => if acc.isEmpty then [] else [acc.reverse]
  | c :: rest, acc, prevCR =>
    if prevCR = true ∧ c = '\n' then splitlinesGo rest acc false
    else if isLineBoundary c = true then
      acc.reverse :: splitlinesGo rest [] (c = '\x0d')
    else splitlinesGo rest (c :: acc) false

/-- Python `str.splitlines()` (without `keepends`). -/
def splitlines (s : List Char) : List (List Char) :=
  splitlinesGo s [] false

/-- Python `"\n".join(lines)`. -/
def joinNL : List (List Char) → List Char
  | [] => []
  | [l] => l
  | l :: l2 :: ls => l ++ '\n' :: joinNL (l2 :: ls)

/-- Worker for `takeBeforeSecondEq`; `seen` records whether a `'='` has
already been passed. -/
def takeEqAux : List Char → Bool → List Char
  | [], _ => []
  | c :: cs, seen =>
    if c = '=' then (if seen then [] else c :: takeEqAux cs true)
    else c :: takeEqAux cs seen

/-- Slice `stripped[:second_eq]` from `clean_yml_content`: everything strictly before
the second occurrence of `'='` (the whole list if there are fewer than two). -/
def takeBeforeSecondEq (l : List Char) : List Char := takeEqAux l false

/-- One iteration of the loop body of `clean_yml_content`
(`conda_launcher.py`, lines 27-45): `none` means the line is skipped
(a `prefix:` line), otherwise the possibly rewritten line is emitted. -/
def cleanLine (line : List Char) : Option (List Char) :=
  if pyStartswith line ("prefix:".data) = true then none
  else if pyStartswith (pyLstrip line) ("- ".data) = true ∧ '=' ∈ pyLstrip line then
    if 1 < countEq (pyLstrip line) '=' then
      some (List.replicate (line.length - (pyLstrip line).length) ' ' ++
        takeBeforeSecondEq (pyLstrip line))
    else some line
  else some line

/-- Function `clean_yml_content` (`conda_launcher.py`, lines 24-47): returns the list of
cleaned lines of the given YAML content. -/
def clean_yml_content (yml_content : List Char) : List (List Char) :=
  (splitlines yml_content).filterMap cleanLine

/-- Snapshot normalization: `clean_yml_content` followed by
`"\n".join(cleaned_lines) + "\n"`, the form written by both
`load_and_clean_environment_file` (line 57) and `save_environment` (line 134). -/
def normalizeSnapshot (content : List Char) : List Char :=
  joinNL (clean_yml_content content) ++ ['\n']

/-- The line scan of `check_environment` (`conda_launcher.py`, lines 80-85)
applied to the stdout of `conda env list`. -/
def check_env_listing (env_name output : List Char) : Bool :=
  (splitlines output).any (fun line =>
    pyStartswith (pyStrip line) (env_name ++ (" ".data)) ||
    pyStartswith (pyStrip line) (env_name ++ ("*".data)))

/-- Function `check_environment` (`conda_launcher.py`, lines 77-88): `listing` is the
stdout of `conda env list`, `none` when the subprocess raised
`CalledProcessError` (which the code converts to `False`). -/
def check_environment (env_name : List Char) (listing : Option (List Char)) : Bool :=
  match listing with
  | some out => check_env_listing env_name out
  | none => false

/-- Slice `line.split(":", 1)[1]`: everything after the first `':'`.  (In
`get_environment_name` this is only reached on lines whose stripped form
starts with `"name:"`, so a colon is always present.) -/
def afterFirstColon : List Char → List Char
  | [] => []
  | c :: cs => if c = ':' then cs else afterFirstColon cs

/-- The line scan of `get_environment_name` (`conda_launcher.py`, lines 92-100):
first line whose stripped form starts with `"name:"` yields
`line.split(":", 1)[1].strip()`. -/
def findNameLine : List (List Char) → Option (List Char)
  | [] => none
  | line :: rest =>
    if pyStartswith (pyStrip line) ("name:".data) = true then
      some (pyStrip (afterFirstColon line))
    else findNameLine rest

/-!
## Launcher process model

The `__main__` block of `conda_launcher.py` (lines 167-259) is a sequential
program whose only interactions with the outside world are: reading
`environment.yml`, creating and writing one temporary file, invoking `conda`
subprocesses, and launching the application.  A `World` records the outcome
of each of those external interactions; `mainRun` is the straight-line
control flow of the script over a `World`, producing the process exit code,
the trace of external commands and branch log lines (`Event`s), and whether
the temporary normalized file is still on disk when the process exits.
`exit(n)` raises `SystemExit` and an uncaught exception terminates the
interpreter with a nonzero code; both unwind through the `try`/`finally`
block, so in the model the body returns its exit code and the `finally`
cleanup is applied to the result (an uncaught exception is recorded as
exit code 1, the interpreter's code for an unhandled exception).
-/

/-- The positional `command` argument (`choices=["update_environment",
"save_environment"]`). -/
inductive Cmd
  | updateEnvironment
  | saveEnvironment
deriving DecidableEq

/-- Parsed CLI arguments of the launcher (`--install PACKAGE`,
`--uninstall PACKAGE`, optional positional command). -/
structure Args where
  install : Option (List Char)
  uninstall : Option (List Char)
  command : Option Cmd

/-- Outcomes of the launcher's external interactions.  A `none`/`false`
value means the corresponding call fails (raises `CalledProcessError`,
`OSError`, ...). -/
structure World where
  /-- Content of `environment.yml`, `none` when opening/reading it raises. -/
  envFile : Option (List Char)
  /-- `tempfile.NamedTemporaryFile(...)` succeeds (the file appears on disk). -/
  tempCreateOk : Bool
  /-- Writing and closing the temporary file succeeds. -/
  tempWriteOk : Bool
  /-- `conda --version` succeeds (`check_conda`). -/
  condaVersionOk : Bool
  /-- stdout of `conda env list`, `none` when the call raises. -/
  envList : Option (List Char)
  /-- `conda env create` succeeds. -/
  createOk : Bool
  /-- `conda env update --prune` succeeds. -/
  updateOk : Bool
  /-- `conda install` succeeds. -/
  installOk : Bool
  /-- `conda remove` succeeds. -/
  uninstallOk : Bool
  /-- stdout of `conda env export`, `none` when the call raises. -/
  exportOut : Option (List Char)
  /-- Writing `environment.yml` back (in `save_environment`) succeeds;
  a failure there is an uncaught `OSError`. -/
  writeEnvFileOk : Bool
  /-- `conda run ... python main.py` exits with code 0. -/
  launchOk : Bool

/-- Observable events of a launcher run: each `conda` subprocess invocation,
plus the four log lines that open the four reconciler branches
(`"Installing package: ..."`, `"Uninstalling package: ..."`,
`"Running command: ..."`, `"Starting ..."`). -/
inductive Event
  | condaVersion
  | condaEnvList
  | condaCreate
  | condaUpdate
  | condaInstall (env pkg : List Char)
  | condaRemove (env pkg : List Char)
  | condaExport (env : List Char)
  | condaLaunch (env : List Char)
  | branchInstall
  | branchUninstall
  | branchCommand
  | branchDefault
deriving DecidableEq

/-- Function `load_and_clean_environment_file` (lines 51-62).  First component: the
returned value (the temporary file, represented by its content; `none` when
any step raised and the `except` returned `None`).  Second component:
whether a temporary file is on disk afterwards — note that when
`NamedTemporaryFile` succeeded but writing it failed, the function returns
`None` yet the file remains on disk. -/
def load_and_clean_environment_file (w : World) : Option (List Char) × Bool :=
  match w.envFile with
  | none => (none, false)
  | some content =>
    if w.tempCreateOk = true then
      if w.tempWriteOk = true then (some (normalizeSnapshot content), true)
      else (none, true)
    else (none, false)

/-- Function `get_environment_name` (lines 92-100) over the modelled world. -/
def get_environment_name (w : World) : Option (List Char) :=
  match w.envFile with
  | none => none
  | some content => findNameLine (splitlines content)

/-- Function `save_environment` (lines 128-139): runs `conda env export`; on success
writes `"\n".join(clean_yml_content(stdout)) + "\n"` to `environment.yml`.
Result `some b` is the function's return value; `none` means the write to
`environment.yml` raised an uncaught exception. -/
def save_environment_m (w : World) (env_name : List Char) : List Event × Option Bool :=
  ([Event.condaExport env_name],
    match w.exportOut with
    | none => some false
    | some _ => if w.writeEnvFileOk = true then some true else none)

/-- Exit code of the `if not save_environment(...): exit(1)` pattern that ends
the install/uninstall/save branches: returning `False` aborts with `exit(1)`,
an uncaught exception (modelled `none`) makes the interpreter exit 1, and
returning `True` leads to `exit(0)`. -/
def saveExitCode : Option Bool → Nat
  | some true => 0
  | some false => 1
  | none => 1

/-- The `--install` branch (lines 186-202), entered with a truthy
`args.install`. -/
def installBranch (w : World) (pkg : List Char) : Nat × List Event :=
  match get_environment_name w with
  | none => (1, [])
  | some env_name =>
    if env_name.isEmpty = true then (1, [])
    else if check_environment env_name w.envList = false then (1, [Event.condaEnvList])
    else if w.installOk = false then
      (1, [Event.condaEnvList, Event.condaInstall env_name pkg])
    else
      (saveExitCode (save_environment_m w env_name).2,
        Event.condaEnvList :: Event.condaInstall env_name pkg ::
          (save_environment_m w env_name).1)

/-- The `--uninstall` branch (lines 204-220). -/
def uninstallBranch (w : World) (pkg : List Char) : Nat × List Event :=
  match get_environment_name w with
  | none => (1, [])
  | some env_name =>
    if env_name.isEmpty = true then (1, [])
    else if check_environment env_name w.envList = false then (1, [Event.condaEnvList])
    else if w.uninstallOk = false then
      (1, [Event.condaEnvList, Event.condaRemove env_name pkg])
    else
      (saveExitCode (save_environment_m w env_name).2,
        Event.condaEnvList :: Event.condaRemove env_name pkg ::
          (save_environment_m w env_name).1)

/-- The positional-command branch (lines 222-237). -/
def commandBranch (w : World) : Cmd → Nat × List Event
  | Cmd.updateEnvironment =>
    if w.updateOk = true then (0, [Event.condaUpdate]) else (1, [Event.condaUpdate])
  | Cmd.saveEnvironment =>
    match get_environment_name w with
    | none => (1, [])
    | some env_name =>
      if env_name.isEmpty = true then (1, [])
      else
        (saveExitCode (save_environment_m w env_name).2, (save_environment_m w env_name).1)

/-- The default create-or-launch behavior (lines 238-255). -/
def defaultBranch (w : World) : Nat × List Event :=
  match get_environment_name w with
  | none => (1, [])
  | some env_name =>
    if env_name.isEmpty = true then (1, [])
    else if check_environment env_name w.envList = false then
      if w.createOk = false then (1, [Event.condaEnvList, Event.condaCreate])
      else if w.launchOk = true then
        (0, [Event.condaEnvList, Event.condaCreate, Event.condaLaunch env_name])
      else (1, [Event.condaEnvList, Event.condaCreate, Event.condaLaunch env_name])
    else if w.launchOk = true then (0, [Event.condaEnvList, Event.condaLaunch env_name])
    else (1, [Event.condaEnvList, Event.condaLaunch env_name])

/-- Prepend a branch-opening log event to a branch result. -/
def withMarker (e : Event) (r : Nat × List Event) : Nat × List Event :=
  (r.1, e :: r.2)

/-- Dispatch after the install/uninstall checks: `if args.command:` else
default (lines 222-255). -/
def selectCommand (w : World) (a : Args) : Nat × List Event :=
  match a.command with
  | some c => withMarker Event.branchCommand (commandBranch w c)
  | none => withMarker Event.branchDefault (defaultBranch w)

/-- Dispatch at `if args.uninstall:` (line 204); an empty package string is
falsy in Python, so it falls through. -/
def selectUninstall (w : World) (a : Args) : Nat × List Event :=
  match a.uninstall with
  | some pkg =>
    if pkg.isEmpty = true then selectCommand w a
    else withMarker Event.branchUninstall (uninstallBranch w pkg)
  | none => selectCommand w a

/-- Dispatch at `if args.install:` (line 186). -/
def selectInstall (w : World) (a : Args) : Nat × List Event :=
  match a.install with
  | some pkg =>
    if pkg.isEmpty = true then selectUninstall w a
    else withMarker Event.branchInstall (installBranch w pkg)
  | none => selectUninstall w a

/-- The body of the `try:` block (lines 181-255): exit code and event trace. -/
def mainBody (w : World) (a : Args) : Nat × List Event :=
  if w.condaVersionOk = false then (1, [Event.condaVersion])
  else ((selectInstall w a).1, Event.condaVersion :: (selectInstall w a).2)

/-- Result of one launcher run: process exit code, trace of external events,
and whether the temporary normalized file is still on disk after exit. -/
structure RunResult where
  exitCode : Nat
  events : List Event
  tempExists : Bool
deriving DecidableEq

/-- The `finally:` block (lines 256-259): `if TEMP_ENV_FILE and
TEMP_ENV_FILE.exists(): TEMP_ENV_FILE.unlink()`.  It runs on every outcome
of the `try` body (normal completion, `SystemExit` from `exit(n)`, and any
other uncaught exception). -/
def finallyCleanup (tempOnDisk : Bool) : Bool :=
  if tempOnDisk = true then false else tempOnDisk

/-- The `__main__` block (lines 167-259).  When
`load_and_clean_environment_file` returns `None` the script logs and calls
`exit(1)` *before* entering the `try`, so no cleanup runs on that path. -/
def mainRun (w : World) (a : Args) : RunResult :=
  match load_and_clean_environment_file w with
  | (none, leaked) => { exitCode := 1, events := [], tempExists := leaked }
  | (some _, onDisk) =>
    { exitCode := (mainBody w a).1
      events := (mainBody w a).2
      tempExists := finallyCleanup onDisk }

/-!
## Configuration manager model (`utils/config.py`)

JSON objects are embedded as association lists with string (`List Char`)
keys and values in an arbitrary type with decidable equality.  `lookupD`,
`setKey` and `dictUpdate` model Python `dict` lookup, item assignment and
`dict.update`.
-/

/-- Lookup `d[key]` as an `Option`: first binding of `key` in the list. -/
def lookupD {V : Type} : List (List Char × V) → List Char → Option V
  | [], _ => none
  | kv :: rest, key => if kv.1 = key then some kv.2 else lookupD rest key

/-- Python `key in d`. -/
def containsKeyD {V : Type} (d : List (List Char × V)) (key : List Char) : Bool :=
  (lookupD d key).isSome

/-- Python `d[key] = v`: replaces the first binding in place, or appends a
new binding. -/
def setKey {V : Type} : List (List Char × V) → List Char → V → List (List Char × V)
  | [], key, v => [(key, v)]
  | kv :: rest, key, v =>
    if kv.1 = key then (kv.1, v) :: rest else kv :: setKey rest key v

/-- Python `d.update(u)`. -/
def dictUpdate {V : Type} (d u : List (List Char × V)) : List (List Char × V) :=
  u.foldl (fun m kv => setKey m kv.1 kv.2) d

/-- Method `Config.update(key, value)` (`config.py`, lines 119-154) in the state
reached after `Config.get()` has loaded `base` (config.json) and `user`
(user_config.json), so that the in-memory merged mapping is
`base.copy()` updated with `user` (lines 100-107).  On success, returns the
new merged mapping and the rewritten content of user_config.json: the
merged items `(k, v)` with `k in base and base[k] != v` (lines 146-153). -/
def config_update {V : Type} [DecidableEq V] (base user : List (List Char × V))
    (key : List Char) (v : V) :
    Except Unit (List (List Char × V) × List (List Char × V)) :=
  if containsKeyD base key = false then Except.error ()
  else
    Except.ok (setKey (dictUpdate base user) key v,
      (setKey (dictUpdate base user) key v).filter
        (fun kv => containsKeyD base kv.1 && decide (lookupD base kv.1 ≠ some kv.2)))

/-- The keys of an association list are pairwise distinct (true of any
mapping parsed from a JSON object, as base and user configs are). -/
def nodupKeysD {V : Type} (d : List (List Char × V)) : Prop :=
  (d.map Prod.fst).Nodup

/-!
## Translation lookup model (`utils/i18n.py`)
-/

/-- The class-level state of `I18n`: `_translations` maps a language code to
its translation table, `_current_language` and `_fallback_language` are the
configured languages (`none` models Python `None`). -/
structure I18nState where
  translations : List (List Char × List (List Char × List Char))
  current : Option (List Char)
  fallback : Option (List Char)

/-- Python `I18n._translations.get(lang, ...)` with an empty-table default. -/
def transGet (st : I18nState) (lang : List Char) : List (List Char × List Char) :=
  (lookupD st.translations lang).getD []

/-- One lookup step of `I18n.t`: `lang_opt and key in translations.get(lang_opt, {})`
(a `None` or empty language code is falsy and skips the table). -/
def langLookup (st : I18nState) (langOpt : Option (List Char)) (key : List Char) :
    Option (List Char) :=
  match langOpt with
  | none => none
  | some lang => if lang.isEmpty = true then none else lookupD (transGet st lang) key

/-- Method `I18n.t(key)` (`i18n.py`, lines 76-102): current language first, then the
fallback language, finally the key itself. -/
def I18n_t (st : I18nState) (key : List Char) : List Char :=
  match langLookup st st.current key with
  | some v => v
  | none =>
    match langLookup st st.fallback key with
    | some v => v
    | none => key

/-!
## Derived predicates and concrete instances
-/

/-- The failure condition of the install-branch guards: the declaration's
name is not resolvable (or falsy), or the environment existence check fails. -/
def installPrereqFails (w : World) : Prop :=
  match get_environment_name w with
  | none => True
  | some env_name => env_name = [] ∨ check_environment env_name w.envList = false

/-- Branch-opening log events. -/
def isMarker : Event → Bool
  | Event.branchInstall => true
  | Event.branchUninstall => true
  | Event.branchCommand => true
  | Event.branchDefault => true
  | _ => false

/-- The branch-opening log events of a trace, in order. -/
def branchMarkers (evs : List Event) : List Event := evs.filter isMarker

/-- Python truthiness of an optional string (`None` and `""` are falsy). -/
def truthy : Option (List Char) → Bool
  | none => false
  | some s => !s.isEmpty

/-- The branch the reconciler is expected to take, per the precedence
`--install`, then `--uninstall`, then positional command, then default. -/
def expectedMarker (a : Args) : Event :=
  if truthy a.install = true then Event.branchInstall
  else if truthy a.uninstall = true then Event.branchUninstall
  else if a.command.isSome = true then Event.branchCommand
  else Event.branchDefault

/-- A run in which every external interaction succeeds (to move to defs). -/
def wAllOk : World :=
  { envFile := some ("name: demo\ndependencies:\n  - python=3.9.7=h12debd9_1\n".data)
    tempCreateOk := true
    tempWriteOk := true
    condaVersionOk := true
    envList := some ("# conda environments:\ndemo * /opt/envs/demo\n".data)
    createOk := true
    updateOk := true
    installOk := true
    uninstallOk := true
    exportOut := some ("name: demo\nprefix: /opt/envs/demo\n".data)
    writeEnvFileOk := true
    launchOk := true }

/-- Arguments of a plain `python conda_launcher.py` invocation. -/
def aDefault : Args := { install := none, uninstall := none, command := none }

def wNoEnv : World := { wAllOk with
  envList := some ("# conda environments:\nother    /opt/envs/other\n".data) }

def aInstallNumpy : Args := { install := some ("numpy".data), uninstall := none, command := none }

def cfgBase : List (List Char × Nat) := [(("lang".data), 1), (("size".data), 2)]

def cfgUser : List (List Char × Nat) := [(("size".data), 3)]

def cfgBase2 : List (List Char × Nat) := [(("lang".data), 1)]

def cfgUser2 : List (List Char × Nat) := [(("stale".data), 5)]

def st0 : I18nState :=
  { translations :=
      [(("es".data), [(("greet".data), ("hola".data))]),
       (("en".data), [(("greet".data), ("hello".data)), (("bye".data), ("goodbye".data))])]
    current := some ("es".data)
    fallback := some ("en".data) }

/-!
## Supporting lemmas
-/

theorem pyStartswith_cons_cons (c d : Char) (s p : List Char) :
    pyStartswith (c :: s) (d :: p) = if c = d then pyStartswith s p else false := rfl

theorem pyStartswith_exists_cons {s : List Char} {d : Char} {p : List Char}
    (h : pyStartswith s (d :: p) = true) : ∃ s2, s = d :: s2 ∧ pyStartswith s2 p = true := by
  cases s with
  | nil => simp [pyStartswith] at h
  | cons c s2 =>
    rw [pyStartswith_cons_cons] at h
    by_cases hc : c = d
    · subst hc
      rw [if_pos rfl] at h
      exact ⟨s2, rfl, h⟩
    · rw [if_neg hc] at h
      exact absurd h (by simp)

theorem startswith_dash_space {s : List Char} (h : pyStartswith s ("- ".data) = true) :
    ∃ s2, s = '-' :: ' ' :: s2 := by
  have h1 := pyStartswith_exists_cons (p := " ".data) h
  obtain ⟨s2, rfl, h2⟩ := h1
  have h3 := pyStartswith_exists_cons (p := ([] : List Char)) h2
  obtain ⟨s3, rfl, _⟩ := h3
  exact ⟨s3, rfl⟩

theorem mem_of_countEq_pos {l : List Char} {c : Char} (h : 0 < countEq l c) : c ∈ l := by
  induction l with
  | nil => simp [countEq] at h
  | cons d rest ih =>
    by_cases hd : d = c
    · exact hd ▸ List.mem_cons_self d rest
    · simp only [countEq, if_neg hd, Nat.zero_add] at h
      exact List.mem_cons_of_mem d (ih h)

theorem countEq_takeEqAux_true (l : List Char) : countEq (takeEqAux l true) '=' = 0 := by
  induction l with
  | nil => rfl
  | cons c rest ih =>
    by_cases hc : c = '='
    · simp [takeEqAux, hc, countEq]
    · simp [takeEqAux, hc, countEq, ih]

theorem countEq_takeEqAux_false {l : List Char} (h : 2 ≤ countEq l '=') :
    countEq (takeEqAux l false) '=' = 1 := by
  induction l with
  | nil => simp [countEq] at h
  | cons c rest ih =>
    by_cases hc : c = '='
    · simp [takeEqAux, hc, countEq, countEq_takeEqAux_true]
    · simp only [countEq, if_neg hc, Nat.zero_add] at h
      simp [takeEqAux, hc, countEq, ih h]

theorem mem_takeEqAux {l : List Char} {b : Bool} {c : Char} (h : c ∈ takeEqAux l b) : c ∈ l := by
  induction l generalizing b with
  | nil => simp [takeEqAux] at h
  | cons d rest ih =>
    by_cases hd : d = '='
    · subst hd
      cases b with
      | true => simp [takeEqAux] at h
      | false =>
        simp only [takeEqAux, if_pos rfl, if_neg Bool.false_ne_true] at h
        rcases List.mem_cons.mp h with h1 | h1
        · exact h1 ▸ List.mem_cons_self _ _
        · exact List.mem_cons_of_mem _ (ih h1)
    · simp only [takeEqAux, if_neg hd] at h
      rcases List.mem_cons.mp h with h1 | h1
      · exact h1 ▸ List.mem_cons_self _ _
      · exact List.mem_cons_of_mem _ (ih h1)

theorem pyLstrip_replicate_space (n : Nat) (l : List Char) :
    pyLstrip (List.replicate n ' ' ++ l) = pyLstrip l := by
  induction n with
  | zero => simp
  | succ m ih =>
    simp only [List.replicate_succ, List.cons_append, pyLstrip, List.dropWhile]
    simp only [show isPySpace ' ' = true from by decide]
    exact ih

theorem pyLstrip_cons_not_space {c : Char} (l : List Char) (h : isPySpace c = false) :
    pyLstrip (c :: l) = c :: l := by
  simp [pyLstrip, List.dropWhile, h]

theorem mem_pyLstrip {l : List Char} {c : Char} (h : c ∈ pyLstrip l) : c ∈ l :=
  (List.dropWhile_sublist (p := isPySpace) (l := l)).mem h

theorem splitlinesGo_append {l : List Char} (h : ∀ c ∈ l, isLineBoundary c = false)
    (acc rest : List Char) :
    splitlinesGo (l ++ '\n' :: rest) acc false =
      (acc.reverse ++ l) :: splitlinesGo rest [] false := by
  induction l generalizing acc with
  | nil =>
    simp only [List.nil_append, splitlinesGo]
    simp [show isLineBoundary '\n' = true from by decide,
      show ('\n' = '\x0d') = False from by simp]
  | cons c l2 ih =>
    have hc : isLineBoundary c = false := h c (List.mem_cons_self _ _)
    simp only [List.cons_append, splitlinesGo]
    rw [if_neg (by simp), if_neg (by simp [hc])]
    simp only [List.append_eq]
    rw [ih (fun d hd => h d (List.mem_cons_of_mem _ hd)) (c :: acc)]
    simp

theorem splitlines_joinNL {ls : List (List Char)} (hne : ls ≠ [])
    (hb : ∀ l ∈ ls, ∀ c ∈ l, isLineBoundary c = false) :
    splitlines (joinNL ls ++ ['\n']) = ls := by
  induction ls with
  | nil => exact absurd rfl hne
  | cons l ls2 ih =>
    cases ls2 with
    | nil =>
      show splitlinesGo (l ++ '\n' :: []) [] false = [l]
      rw [splitlinesGo_append (hb l (List.mem_cons_self _ _)) [] []]
      simp [splitlinesGo]
    | cons l2 ls3 =>
      show splitlinesGo ((l ++ '\n' :: joinNL (l2 :: ls3)) ++ ['\n']) [] false = l :: l2 :: ls3
      rw [List.append_assoc, List.cons_append]
      rw [splitlinesGo_append (hb l (List.mem_cons_self _ _)) [] _]
      have := ih (by simp) (fun x hx => hb x (List.mem_cons_of_mem _ hx))
      simpa [splitlines] using this

theorem splitlinesGo_noBoundary :
    ∀ (s acc : List Char) (flag : Bool), (∀ c ∈ acc, isLineBoundary c = false) →
      ∀ l ∈ splitlinesGo s acc flag, ∀ c ∈ l, isLineBoundary c = false := by
  intro s
  induction s with
  | nil =>
    intro acc flag hacc l hl c hc
    simp only [splitlinesGo] at hl
    by_cases he : acc.isEmpty = true
    · simp [he] at hl
    · simp only [if_neg he, List.mem_singleton] at hl
      subst hl
      exact hacc c (List.mem_reverse.mp hc)
  | cons d rest ih =>
    intro acc flag hacc l hl c hc
    simp only [splitlinesGo] at hl
    by_cases h1 : flag = true ∧ d = '\n'
    · rw [if_pos h1] at hl
      exact ih acc false hacc l hl c hc
    · rw [if_neg h1] at hl
      by_cases h2 : isLineBoundary d = true
      · rw [if_pos h2] at hl
        rcases List.mem_cons.mp hl with h3 | h3
        · subst h3
          exact hacc c (List.mem_reverse.mp hc)
        · exact ih [] _ (by simp) l h3 c hc
      · rw [if_neg h2] at hl
        refine ih (d :: acc) false ?_ l hl c hc
        intro e he
        rcases List.mem_cons.mp he with h4 | h4
        · subst h4
          exact Bool.eq_false_iff.mpr (fun hb => h2 hb)
        · exact hacc e h4

theorem splitlines_noBoundary {s l : List Char} (hl : l ∈ splitlines s) :
    ∀ c ∈ l, isLineBoundary c = false :=
  splitlinesGo_noBoundary s [] false (by simp) l hl

theorem takeBefore_dash_space (s2 : List Char) :
    takeBeforeSecondEq ('-' :: ' ' :: s2) = '-' :: ' ' :: takeEqAux s2 false := by
  simp only [takeBeforeSecondEq, takeEqAux,
    if_neg (by decide : ¬('-' = '=')), if_neg (by decide : ¬(' ' = '='))]

theorem countEq_dash_space (s2 : List Char) (c : Char) (h1 : ¬('-' = c)) (h2 : ¬(' ' = c)) :
    countEq ('-' :: ' ' :: s2) c = countEq s2 c := by
  simp only [countEq, if_neg h1, if_neg h2, Nat.zero_add]

theorem pyStartswith_nil (s : List Char) : pyStartswith s [] = true := by
  cases s <;> rfl

theorem pyStartswith_dash_space (t : List Char) :
    pyStartswith ('-' :: ' ' :: t) ("- ".data) = true := by
  show pyStartswith ('-' :: ' ' :: t) ('-' :: ' ' :: []) = true
  rw [pyStartswith_cons_cons, if_pos rfl, pyStartswith_cons_cons, if_pos rfl, pyStartswith_nil]

theorem prefixTest_false_of_head {c : Char} (s : List Char) (hc : ¬(c = 'p')) :
    pyStartswith (c :: s) ("prefix:".data) = false := by
  show pyStartswith (c :: s) ('p' :: ("refix:".data)) = false
  rw [pyStartswith_cons_cons, if_neg hc]

theorem indent_dash_prefixTest_false (n : Nat) (t : List Char) :
    pyStartswith (List.replicate n ' ' ++ '-' :: t) ("prefix:".data) = false := by
  cases n with
  | zero =>
    simp only [List.replicate_zero, List.nil_append]
    exact prefixTest_false_of_head _ (by decide)
  | succ m =>
    rw [List.replicate_succ, List.cons_append]
    exact prefixTest_false_of_head _ (by decide)

theorem cleanLine_prefixTest_false {a l : List Char} (h : cleanLine a = some l) :
    pyStartswith l ("prefix:".data) = false := by
  unfold cleanLine at h
  split_ifs at h with hA hB hC
  · have hl := (Option.some.inj h).symm
    obtain ⟨s2, hs⟩ := startswith_dash_space hB.1
    rw [hs, takeBefore_dash_space] at hl
    rw [hl]
    exact indent_dash_prefixTest_false _ _
  · exact (Option.some.inj h) ▸ Bool.eq_false_iff.mpr hA
  · exact (Option.some.inj h) ▸ Bool.eq_false_iff.mpr hA

theorem cleanLine_noBoundary {a l : List Char} (h : cleanLine a = some l)
    (ha : ∀ c ∈ a, isLineBoundary c = false) : ∀ c ∈ l, isLineBoundary c = false := by
  unfold cleanLine at h
  split_ifs at h with hA hB hC
  · have hl := (Option.some.inj h).symm
    intro c hc
    rw [hl] at hc
    rcases List.mem_append.mp hc with h1 | h1
    · have : c = ' ' := List.eq_of_mem_replicate h1
      subst this
      decide
    · exact ha c (mem_pyLstrip (mem_takeEqAux (show c ∈ takeEqAux (pyLstrip a) false from h1)))
  · exact (Option.some.inj h) ▸ ha
  · exact (Option.some.inj h) ▸ ha

theorem cleanLine_fixed {a l : List Char} (h : cleanLine a = some l) :
    cleanLine l = some l := by
  unfold cleanLine at h
  split_ifs at h with hA hB hC
  · -- truncation branch: the output has exactly one '=' and passes through
    have hl := (Option.some.inj h).symm
    obtain ⟨s2, hs⟩ := startswith_dash_space hB.1
    rw [hs, takeBefore_dash_space] at hl
    rw [hs, countEq_dash_space _ _ (by decide) (by decide)] at hC
    have hcT : countEq (takeEqAux s2 false) '=' = 1 := countEq_takeEqAux_false (by omega)
    have hmT : '=' ∈ takeEqAux s2 false := mem_of_countEq_pos (by omega)
    have hstrip : pyLstrip l = '-' :: ' ' :: takeEqAux s2 false := by
      rw [hl, pyLstrip_replicate_space, pyLstrip_cons_not_space _ (by decide)]
    have hpf : pyStartswith l ("prefix:".data) = false := by
      rw [hl]
      exact indent_dash_prefixTest_false _ _
    have hB2 : pyStartswith (pyLstrip l) ("- ".data) = true ∧ '=' ∈ pyLstrip l := by
      rw [hstrip]
      exact ⟨pyStartswith_dash_space _,
        List.mem_cons_of_mem _ (List.mem_cons_of_mem _ hmT)⟩
    have hC2 : ¬(1 < countEq (pyLstrip l) '=') := by
      rw [hstrip, countEq_dash_space _ _ (by decide) (by decide), hcT]
      omega
    unfold cleanLine
    rw [if_neg (by simp [hpf]), if_pos hB2, if_neg hC2]
  · have hl := Option.some.inj h
    subst hl
    unfold cleanLine
    rw [if_neg hA, if_pos hB, if_neg hC]
  · have hl := Option.some.inj h
    subst hl
    unfold cleanLine
    rw [if_neg hA, if_neg hB]

theorem clean_mem_fixed {x : List Char} {l : List Char} (h : l ∈ clean_yml_content x) :
    cleanLine l = some l := by
  obtain ⟨a, _, hca⟩ := List.mem_filterMap.mp h
  exact cleanLine_fixed hca

theorem clean_mem_noBoundary {x : List Char} {l : List Char} (h : l ∈ clean_yml_content x) :
    ∀ c ∈ l, isLineBoundary c = false := by
  obtain ⟨a, ha, hca⟩ := List.mem_filterMap.mp h
  exact cleanLine_noBoundary hca (splitlines_noBoundary ha)

theorem filterMap_cleanLine_fixed {ls : List (List Char)}
    (h : ∀ l ∈ ls, cleanLine l = some l) : ls.filterMap cleanLine = ls := by
  induction ls with
  | nil => rfl
  | cons l rest ih =>
    rw [List.filterMap_cons, h l (List.mem_cons_self _ _),
      ih (fun x hx => h x (List.mem_cons_of_mem _ hx))]

theorem prefixTest_false_of_strip_dash {line : List Char}
    (h : pyStartswith (pyLstrip line) ("- ".data) = true) :
    pyStartswith line ("prefix:".data) = false := by
  obtain ⟨s2, hs⟩ := startswith_dash_space h
  have hdecomp : line.takeWhile isPySpace ++ pyLstrip line = line := by
    unfold pyLstrip
    exact List.takeWhile_append_dropWhile isPySpace line
  cases hw : line.takeWhile isPySpace with
  | nil =>
    have hline : line = '-' :: ' ' :: s2 := by
      conv_lhs => rw [← hdecomp, hw]
      rw [List.nil_append, hs]
    rw [hline]
    exact prefixTest_false_of_head _ (by decide)
  | cons c w2 =>
    have hc : isPySpace c = true := by
      have hcmem : c ∈ line.takeWhile isPySpace := hw ▸ List.mem_cons_self _ _
      exact List.mem_takeWhile_imp hcmem
    have hline : line = c :: (w2 ++ pyLstrip line) := by
      conv_lhs => rw [← hdecomp, hw]
      rw [List.cons_append]
    rw [hline]
    apply prefixTest_false_of_head
    intro hcp
    rw [hcp] at hc
    exact absurd hc (by decide)

theorem installBranch_prereq {w : World} (pkg : List Char) (h : installPrereqFails w) :
    (installBranch w pkg).1 = 1 ∧
      ∀ n q, Event.condaInstall n q ∉ (installBranch w pkg).2 := by
  unfold installPrereqFails at h
  unfold installBranch
  cases hn : get_environment_name w with
  | none => simp
  | some env_name =>
    rw [hn] at h
    by_cases he : env_name.isEmpty = true
    · simp [he]
    · rcases h with h1 | h1
      · exact absurd (by simp [h1] : env_name.isEmpty = true) he
      · simp [he, h1]

theorem condaInstall_mem_installBranch {w : World} {pkg n q : List Char}
    (h : Event.condaInstall n q ∈ (installBranch w pkg).2) :
    get_environment_name w = some n ∧ n ≠ [] ∧ check_environment n w.envList = true := by
  unfold installBranch at h
  cases hn : get_environment_name w with
  | none => rw [hn] at h; simp at h
  | some env_name =>
    rw [hn] at h
    by_cases he : env_name.isEmpty = true
    · simp [he] at h
    · by_cases hc : check_environment env_name w.envList = false
      · simp [he, hc] at h
      · by_cases hi : w.installOk = false
        · simp [he, hc, hi, save_environment_m] at h
          rcases h with ⟨h1, h2⟩
          subst h1
          exact ⟨rfl, by simpa using he, by simpa using hc⟩
        · simp [he, hc, hi, save_environment_m] at h
          rcases h with ⟨h1, h2⟩
          subst h1
          exact ⟨rfl, by simpa using he, by simpa using hc⟩

theorem condaInstall_not_mem_uninstallBranch {w : World} {pkg n q : List Char} :
    Event.condaInstall n q ∉ (uninstallBranch w pkg).2 := by
  unfold uninstallBranch
  cases hn : get_environment_name w with
  | none => simp
  | some env_name =>
    by_cases he : env_name.isEmpty = true
    · simp [he]
    · by_cases hc : check_environment env_name w.envList = false
      · simp [he, hc]
      · by_cases hu : w.uninstallOk = false
        · simp [he, hc, hu, save_environment_m]
        · simp [he, hc, hu, save_environment_m]

theorem condaInstall_not_mem_commandBranch {w : World} {c : Cmd} {n q : List Char} :
    Event.condaInstall n q ∉ (commandBranch w c).2 := by
  cases c with
  | updateEnvironment =>
    by_cases hu : w.updateOk = true
    · simp [commandBranch, hu]
    · simp [commandBranch, hu]
  | saveEnvironment =>
    unfold commandBranch
    cases hn : get_environment_name w with
    | none => simp
    | some env_name =>
      by_cases he : env_name.isEmpty = true
      · simp [he]
      · simp [he, save_environment_m]

theorem condaInstall_not_mem_defaultBranch {w : World} {n q : List Char} :
    Event.condaInstall n q ∉ (defaultBranch w).2 := by
  unfold defaultBranch
  cases hn : get_environment_name w with
  | none => simp
  | some env_name =>
    by_cases he : env_name.isEmpty = true
    · simp [he]
    · by_cases hc : check_environment env_name w.envList = false
      · by_cases hcr : w.createOk = false
        · simp [he, hc, hcr]
        · by_cases hl : w.launchOk = true
          · simp [he, hc, hcr, hl]
          · simp [he, hc, hcr, hl]
      · by_cases hl : w.launchOk = true
        · simp [he, hc, hl]
        · simp [he, hc, hl]

theorem markers_installBranch (w : World) (pkg : List Char) :
    branchMarkers (installBranch w pkg).2 = [] := by
  unfold installBranch
  cases hn : get_environment_name w with
  | none => simp [branchMarkers]
  | some env_name =>
    by_cases he : env_name.isEmpty = true
    · simp [he, branchMarkers]
    · by_cases hc : check_environment env_name w.envList = false
      · simp [he, hc, branchMarkers, isMarker]
      · by_cases hi : w.installOk = false
        · simp [he, hc, hi, branchMarkers, isMarker]
        · simp [he, hc, hi, branchMarkers, isMarker, save_environment_m]

theorem markers_uninstallBranch (w : World) (pkg : List Char) :
    branchMarkers (uninstallBranch w pkg).2 = [] := by
  unfold uninstallBranch
  cases hn : get_environment_name w with
  | none => simp [branchMarkers]
  | some env_name =>
    by_cases he : env_name.isEmpty = true
    · simp [he, branchMarkers]
    · by_cases hc : check_environment env_name w.envList = false
      · simp [he, hc, branchMarkers, isMarker]
      · by_cases hu : w.uninstallOk = false
        · simp [he, hc, hu, branchMarkers, isMarker]
        · simp [he, hc, hu, branchMarkers, isMarker, save_environment_m]

theorem markers_commandBranch (w : World) (c : Cmd) :
    branchMarkers (commandBranch w c).2 = [] := by
  cases c with
  | updateEnvironment =>
    by_cases hu : w.updateOk = true
    · simp [commandBranch, hu, branchMarkers, isMarker]
    · simp [commandBranch, hu, branchMarkers, isMarker]
  | saveEnvironment =>
    unfold commandBranch
    cases hn : get_environment_name w with
    | none => simp [branchMarkers]
    | some env_name =>
      by_cases he : env_name.isEmpty = true
      · simp [he, branchMarkers]
      · simp [he, branchMarkers, isMarker, save_environment_m]

theorem markers_defaultBranch (w : World) :
    branchMarkers (defaultBranch w).2 = [] := by
  unfold defaultBranch
  cases hn : get_environment_name w with
  | none => simp [branchMarkers]
  | some env_name =>
    by_cases he : env_name.isEmpty = true
    · simp [he, branchMarkers]
    · by_cases hc : check_environment env_name w.envList = false
      · by_cases hcr : w.createOk = false
        · simp [he, hc, hcr, branchMarkers, isMarker]
        · by_cases hl : w.launchOk = true
          · simp [he, hc, hcr, hl, branchMarkers, isMarker]
          · simp [he, hc, hcr, hl, branchMarkers, isMarker]
      · by_cases hl : w.launchOk = true
        · simp [he, hc, hl, branchMarkers, isMarker]
        · simp [he, hc, hl, branchMarkers, isMarker]

theorem branchMarkers_cons (e : Event) (evs : List Event) :
    branchMarkers (e :: evs) =
      if isMarker e = true then e :: branchMarkers evs else branchMarkers evs := by
  simp [branchMarkers, List.filter_cons]

theorem markers_selectCommand (w : World) (a : Args) :
    branchMarkers (selectCommand w a).2 =
      [if a.command.isSome = true then Event.branchCommand else Event.branchDefault] := by
  cases hc : a.command with
  | some c =>
    rw [show selectCommand w a = withMarker Event.branchCommand (commandBranch w c) from by
      simp [selectCommand, hc]]
    simp [withMarker, branchMarkers_cons, isMarker, markers_commandBranch, hc]
  | none =>
    rw [show selectCommand w a = withMarker Event.branchDefault (defaultBranch w) from by
      simp [selectCommand, hc]]
    simp [withMarker, branchMarkers_cons, isMarker, markers_defaultBranch, hc]

theorem markers_selectUninstall (w : World) (a : Args) :
    branchMarkers (selectUninstall w a).2 =
      [if truthy a.uninstall = true then Event.branchUninstall
       else if a.command.isSome = true then Event.branchCommand
       else Event.branchDefault] := by
  cases hu : a.uninstall with
  | none =>
    rw [show selectUninstall w a = selectCommand w a from by simp [selectUninstall, hu]]
    rw [markers_selectCommand]
    simp [truthy, hu]
  | some upkg =>
    by_cases hue : upkg.isEmpty = true
    · rw [show selectUninstall w a = selectCommand w a from by simp [selectUninstall, hu, hue]]
      rw [markers_selectCommand]
      simp [truthy, hu, hue]
    · rw [show selectUninstall w a =
          withMarker Event.branchUninstall (uninstallBranch w upkg) from by
        simp [selectUninstall, hu, hue]]
      simp [withMarker, branchMarkers_cons, isMarker, markers_uninstallBranch, truthy, hu, hue]

theorem markers_selectInstall (w : World) (a : Args) :
    branchMarkers (selectInstall w a).2 = [expectedMarker a] := by
  cases hi : a.install with
  | none =>
    rw [show selectInstall w a = selectUninstall w a from by simp [selectInstall, hi]]
    rw [markers_selectUninstall]
    simp [expectedMarker, truthy, hi]
  | some pkg =>
    by_cases hpe : pkg.isEmpty = true
    · rw [show selectInstall w a = selectUninstall w a from by simp [selectInstall, hi, hpe]]
      rw [markers_selectUninstall]
      simp [expectedMarker, truthy, hi, hpe]
    · rw [show selectInstall w a = withMarker Event.branchInstall (installBranch w pkg) from by
        simp [selectInstall, hi, hpe]]
      simp [withMarker, branchMarkers_cons, isMarker, markers_installBranch,
        expectedMarker, truthy, hi, hpe]

theorem isEmpty_false_of_ne_nil {l : List Char} (h : l ≠ []) : l.isEmpty = false := by
  cases l with
  | nil => exact absurd rfl h
  | cons c rest => rfl

theorem condaInstall_not_mem_selectCommand {w : World} {a : Args} {n q : List Char} :
    Event.condaInstall n q ∉ (selectCommand w a).2 := by
  intro h
  cases hc : a.command with
  | some c =>
    rw [show selectCommand w a = withMarker Event.branchCommand (commandBranch w c) from by
      simp [selectCommand, hc]] at h
    simp [withMarker] at h
    exact condaInstall_not_mem_commandBranch h
  | none =>
    rw [show selectCommand w a = withMarker Event.branchDefault (defaultBranch w) from by
      simp [selectCommand, hc]] at h
    simp [withMarker] at h
    exact condaInstall_not_mem_defaultBranch h

theorem condaInstall_not_mem_selectUninstall {w : World} {a : Args} {n q : List Char} :
    Event.condaInstall n q ∉ (selectUninstall w a).2 := by
  intro h
  cases hu : a.uninstall with
  | none =>
    rw [show selectUninstall w a = selectCommand w a from by simp [selectUninstall, hu]] at h
    exact condaInstall_not_mem_selectCommand h
  | some upkg =>
    by_cases hue : upkg.isEmpty = true
    · rw [show selectUninstall w a = selectCommand w a from by
        simp [selectUninstall, hu, hue]] at h
      exact condaInstall_not_mem_selectCommand h
    · rw [show selectUninstall w a =
          withMarker Event.branchUninstall (uninstallBranch w upkg) from by
        simp [selectUninstall, hu, hue]] at h
      simp [withMarker] at h
      exact condaInstall_not_mem_uninstallBranch h

theorem condaInstall_mem_selectInstall {w : World} {a : Args} {n q : List Char}
    (h : Event.condaInstall n q ∈ (selectInstall w a).2) :
    get_environment_name w = some n ∧ n ≠ [] ∧ check_environment n w.envList = true := by
  cases hi : a.install with
  | none =>
    rw [show selectInstall w a = selectUninstall w a from by simp [selectInstall, hi]] at h
    exact absurd h condaInstall_not_mem_selectUninstall
  | some pkg =>
    by_cases hpe : pkg.isEmpty = true
    · rw [show selectInstall w a = selectUninstall w a from by simp [selectInstall, hi, hpe]] at h
      exact absurd h condaInstall_not_mem_selectUninstall
    · rw [show selectInstall w a = withMarker Event.branchInstall (installBranch w pkg) from by
        simp [selectInstall, hi, hpe]] at h
      simp [withMarker] at h
      exact condaInstall_mem_installBranch h

theorem lookup_setKey_self {V : Type} (d : List (List Char × V)) (k : List Char) (v : V) :
    lookupD (setKey d k v) k = some v := by
  induction d with
  | nil => simp [setKey, lookupD]
  | cons kv rest ih =>
    by_cases hk : kv.1 = k
    · simp [setKey, hk, lookupD]
    · simp [setKey, hk, lookupD, ih]

theorem lookup_setKey_ne {V : Type} (d : List (List Char × V)) {k k2 : List Char} (v : V)
    (h : k2 ≠ k) : lookupD (setKey d k v) k2 = lookupD d k2 := by
  induction d with
  | nil => simp [setKey, lookupD, Ne.symm h]
  | cons kv rest ih =>
    by_cases hk : kv.1 = k
    · simp [setKey, hk, lookupD, Ne.symm h]
    · by_cases hk2 : kv.1 = k2
      · simp [setKey, hk, lookupD, hk2, h]
      · simp [setKey, hk, lookupD, hk2, ih]

theorem contains_setKey_of {V : Type} {d : List (List Char × V)} {k2 : List Char}
    (k : List Char) (v : V) (h : containsKeyD d k2 = true) :
    containsKeyD (setKey d k v) k2 = true := by
  by_cases hk : k2 = k
  · subst hk
    simp [containsKeyD, lookup_setKey_self]
  · rw [containsKeyD, lookup_setKey_ne d v hk]
    exact h

theorem contains_dictUpdate_left {V : Type} {base : List (List Char × V)}
    (user : List (List Char × V)) {k : List Char} (h : containsKeyD base k = true) :
    containsKeyD (dictUpdate base user) k = true := by
  induction user generalizing base with
  | nil => exact h
  | cons kv rest ih => exact ih (contains_setKey_of kv.1 kv.2 h)

theorem contains_iff_mem_keys {V : Type} (d : List (List Char × V)) (k : List Char) :
    containsKeyD d k = true ↔ k ∈ d.map Prod.fst := by
  induction d with
  | nil => simp [containsKeyD, lookupD]
  | cons kv rest ih =>
    by_cases hk : kv.1 = k
    · have hl : containsKeyD (kv :: rest) k = true := by
        simp only [containsKeyD, lookupD, if_pos hk, Option.isSome_some]
      have hr : k ∈ (kv :: rest).map Prod.fst := by
        simp only [List.map_cons, List.mem_cons]
        exact Or.inl hk.symm
      exact iff_of_true hl hr
    · simp only [containsKeyD, lookupD, if_neg hk, List.map_cons, List.mem_cons]
      rw [← containsKeyD, ih]
      constructor
      · exact Or.inr
      · intro hor
        rcases hor with h1 | h1
        · exact absurd h1.symm hk
        · exact h1

theorem lookup_none_of_not_mem_keys {V : Type} {d : List (List Char × V)} {k : List Char}
    (h : k ∉ d.map Prod.fst) : lookupD d k = none := by
  cases hl : lookupD d k with
  | none => rfl
  | some v =>
    have hc : containsKeyD d k = true := by simp [containsKeyD, hl]
    exact absurd ((contains_iff_mem_keys d k).mp hc) h

theorem keys_setKey {V : Type} (d : List (List Char × V)) (k : List Char) (v : V) :
    (setKey d k v).map Prod.fst =
      if containsKeyD d k = true then d.map Prod.fst else d.map Prod.fst ++ [k] := by
  induction d with
  | nil =>
    rw [if_neg (by simp [containsKeyD, lookupD])]
    simp [setKey]
  | cons kv rest ih =>
    by_cases hk : kv.1 = k
    · rw [if_pos (by simp [containsKeyD, lookupD, hk])]
      simp [setKey, hk]
    · have hstep : containsKeyD (kv :: rest) k = containsKeyD rest k := by
        simp [containsKeyD, lookupD, hk]
      rw [hstep]
      by_cases hc : containsKeyD rest k = true
      · rw [if_pos hc]
        simp only [setKey, if_neg hk, List.map_cons, ih, if_pos hc]
      · rw [if_neg hc]
        simp only [setKey, if_neg hk, List.map_cons, ih, if_neg hc, List.cons_append]

theorem nodup_setKey {V : Type} {d : List (List Char × V)} (k : List Char) (v : V)
    (h : nodupKeysD d) : nodupKeysD (setKey d k v) := by
  unfold nodupKeysD at h ⊢
  rw [keys_setKey]
  by_cases hc : containsKeyD d k = true
  · simp [hc, h]
  · simp only [hc, if_false]
    have hk : k ∉ d.map Prod.fst := fun hm => hc ((contains_iff_mem_keys d k).mpr hm)
    simp [List.nodup_append, h, hk]

theorem nodup_dictUpdate {V : Type} {base : List (List Char × V)}
    (user : List (List Char × V)) (h : nodupKeysD base) : nodupKeysD (dictUpdate base user) := by
  induction user generalizing base with
  | nil => exact h
  | cons kv rest ih => exact ih (nodup_setKey kv.1 kv.2 h)

theorem contains_filter_iff {V : Type} {d : List (List Char × V)} (hn : nodupKeysD d)
    (p : List Char × V → Bool) (k : List Char) :
    containsKeyD (d.filter p) k = true ↔
      ∃ v, lookupD d k = some v ∧ p (k, v) = true := by
  induction d with
  | nil => simp [containsKeyD, lookupD]
  | cons kv rest ih =>
    have hn2 : nodupKeysD rest := (List.nodup_cons.mp hn).2
    have hknotin : kv.1 ∉ rest.map Prod.fst := (List.nodup_cons.mp hn).1
    cases hp : p kv with
    | true =>
      rw [List.filter_cons_of_pos hp]
      by_cases hk : kv.1 = k
      · subst hk
        constructor
        · intro _
          refine ⟨kv.2, by simp [lookupD], ?_⟩
          rw [show ((kv.1, kv.2) : List Char × V) = kv from rfl]
          exact hp
        · intro _
          simp [containsKeyD, lookupD]
      · simp only [containsKeyD, lookupD, if_neg hk]
        exact ih hn2
    | false =>
      rw [List.filter_cons_of_neg (by simp [hp])]
      by_cases hk : kv.1 = k
      · subst hk
        rw [ih hn2]
        constructor
        · intro hex
          rcases hex with ⟨v, hv, _⟩
          rw [lookup_none_of_not_mem_keys hknotin] at hv
          exact absurd hv (by simp)
        · intro hex
          rcases hex with ⟨v, hv, hpv⟩
          simp only [lookupD, if_pos rfl] at hv
          have hv2 : kv.2 = v := by simpa using hv
          subst hv2
          rw [show ((kv.1, kv.2) : List Char × V) = kv from rfl] at hpv
          rw [hp] at hpv
          exact absurd hpv (by simp)
      · rw [ih hn2]
        simp only [lookupD, if_neg hk]

theorem lookup_filter_some {V : Type} {d : List (List Char × V)}
    {p : List Char × V → Bool} {k : List Char} {v : V}
    (h : lookupD (d.filter p) k = some v) : p (k, v) = true := by
  induction d with
  | nil => simp [lookupD] at h
  | cons kv rest ih =>
    cases hp : p kv with
    | true =>
      rw [List.filter_cons_of_pos hp] at h
      by_cases hk : kv.1 = k
      · rw [lookupD, if_pos hk] at h
        have hv : kv.2 = v := by simpa using h
        subst hv
        rw [← hk, show ((kv.1, kv.2) : List Char × V) = kv from rfl]
        exact hp
      · rw [lookupD, if_neg hk] at h
        exact ih h
    | false =>
      rw [List.filter_cons_of_neg (by simp [hp])] at h
      exact ih h

/-!
## Claim theorems
-/

/-- Claim C1, counterexample.  The claim states that `check_environment`
returns true for a listing line consisting of `myenv` followed only by
trailing whitespace; the code returns false on that line, because
`line.strip()` removes the trailing whitespace and the stripped line
`myenv` does not start with `myenv` plus a space or an asterisk. -/
theorem C1_cex : check_environment ("myenv".data) (some ("myenv   ".data)) = false := by decide

/-- Claim C1, amended.  For a successful listing, `check_environment`
returns true exactly when some output line, after trimming, starts with the
environment name followed by a space or by an asterisk; in particular it
returns true for the listing line `myenv *`, returns false for a line
consisting of `myenv` followed only by trailing whitespace (trimming
removes the trailing whitespace, so nothing follows the name), and returns
false for the line `myenvfoo`. -/
theorem C1_thm :
    (∀ (env_name out : List Char), check_environment env_name (some out) = true ↔
      ∃ line ∈ splitlines out,
        pyStartswith (pyStrip line) (env_name ++ (" ".data)) = true ∨
        pyStartswith (pyStrip line) (env_name ++ ("*".data)) = true)
  ∧ check_environment ("myenv".data) (some ("myenv *".data)) = true
  ∧ check_environment ("myenv".data) (some ("myenv   ".data)) = false
  ∧ check_environment ("myenv".data) (some ("myenvfoo".data)) = false := by
  refine ⟨fun env_name out => ?_, by decide, by decide, by decide⟩
  simp [check_environment, check_env_listing, List.any_eq_true, Bool.or_eq_true]

/-- Claim C2, counterexample.  A run can reach the point where the
temporary normalized file has been created and still exit with the file
left on disk: if `tempfile.NamedTemporaryFile` succeeds but writing the
file fails, the `except` clause of `load_and_clean_environment_file`
returns `None` without unlinking the created file, and `__main__` then
calls `exit(1)` *before* entering the `try`/`finally` block, so the
cleanup never runs and the orphaned temporary file survives the run. -/
theorem C2_cex :
    (mainRun { wAllOk with tempWriteOk := false } aDefault).exitCode = 1 ∧
    (mainRun { wAllOk with tempWriteOk := false } aDefault).tempExists = true := by
  exact ⟨rfl, rfl⟩

/-- Claim C2, amended.  Whenever `load_and_clean_environment_file`
returns a path (the temporary normalized file was created *and* written
successfully), the temporary file is absent from the filesystem after the
process exits, on every exit path: normal success, every fatal abort via
`exit(1)` inside the `try` block, and unhandled termination reaching the
`finally` cleanup block. -/
theorem C2_thm (w : World) (a : Args)
    (h : (load_and_clean_environment_file w).1.isSome = true) :
    (mainRun w a).tempExists = false := by
  rcases hl : load_and_clean_environment_file w with ⟨o, b⟩
  cases o with
  | none => rw [hl] at h; simp at h
  | some c => simp [mainRun, hl, finallyCleanup]

/-- Witness for the C2 theorem at a fully successful run. -/
theorem C2_wit :
    (load_and_clean_environment_file wAllOk).1.isSome = true ∧
    (mainRun wAllOk aDefault).tempExists = false :=
  ⟨rfl, C2_thm wAllOk aDefault rfl⟩

/-- Claim C3, confirmed.  Snapshot normalization is idempotent: for every
input text `x`, `normalize(normalize(x)) = normalize(x)`, where `normalize`
is `clean_yml_content` followed by rejoining the lines with newline
separators and a guaranteed trailing newline. -/
theorem C3_thm (x : List Char) :
    normalizeSnapshot (normalizeSnapshot x) = normalizeSnapshot x := by
  unfold normalizeSnapshot
  by_cases hnil : clean_yml_content x = []
  · rw [hnil]
    rfl
  · have hsplit : splitlines (joinNL (clean_yml_content x) ++ ['\n']) = clean_yml_content x :=
      splitlines_joinNL hnil (fun l hl => clean_mem_noBoundary hl)
    have hclean : clean_yml_content (joinNL (clean_yml_content x) ++ ['\n']) =
        clean_yml_content x := by
      rw [clean_yml_content, hsplit]
      exact filterMap_cleanLine_fixed (fun l hl => clean_mem_fixed hl)
    rw [hclean]

/-- Claim C4, counterexample.  Two deviations from the claim as stated:
a line starting with `prefix:` has trimmed content that does not begin
with `- `, yet it does not pass through unchanged — it is dropped; and for
a tab-indented dependency line the truncation does not preserve the
original leading indentation literally — the indent is re-emitted as the
same number of space characters. -/
theorem C4_cex :
    cleanLine ("prefix: /opt/conda/envs/demo".data) = none ∧
    cleanLine ("\t- numpy=1.26=py312h2b".data) = some (" - numpy=1.26".data) := by decide

/-- Claim C4, amended.  For every input line whose trimmed content begins
with `- ` and contains more than one occurrence of `=`, normalization
truncates the line to everything before the second occurrence of `=`,
re-emitting the leading indentation as one space per stripped whitespace
character (identical to the original when the indentation is spaces, e.g.
`  - foo=1.2.3=abc123` becomes `  - foo=1.2.3`); every line with zero or
one `=` occurrence, and every line whose trimmed content does not begin
with `- `, passes through unchanged — except lines starting with
`prefix:`, which are dropped. -/
theorem C4_thm :
    (∀ line : List Char, pyStartswith (pyLstrip line) ("- ".data) = true →
      1 < countEq (pyLstrip line) '=' →
      cleanLine line = some (List.replicate (line.length - (pyLstrip line).length) ' ' ++
        takeBeforeSecondEq (pyLstrip line)))
  ∧ (∀ line : List Char, pyStartswith line ("prefix:".data) = false →
      (pyStartswith (pyLstrip line) ("- ".data) = false ∨ countEq (pyLstrip line) '=' ≤ 1) →
      cleanLine line = some line)
  ∧ cleanLine ("  - foo=1.2.3=abc123".data) = some ("  - foo=1.2.3".data) := by
  refine ⟨fun line h1 h2 => ?_, fun line hp hcase => ?_, by decide⟩
  · have hm : '=' ∈ pyLstrip line := mem_of_countEq_pos (by omega)
    unfold cleanLine
    rw [if_neg (by simp [prefixTest_false_of_strip_dash h1]), if_pos ⟨h1, hm⟩, if_pos h2]
  · unfold cleanLine
    rw [if_neg (by simp [hp])]
    rcases hcase with hc | hc
    · rw [if_neg (by simp [hc])]
    · by_cases hb : pyStartswith (pyLstrip line) ("- ".data) = true ∧ '=' ∈ pyLstrip line
      · rw [if_pos hb, if_neg (by omega)]
      · rw [if_neg hb]

/-- Witness for the C4 theorem at the example line of the claim. -/
theorem C4_wit :
    cleanLine ("  - foo=1.2.3=abc123".data) =
      some (List.replicate (("  - foo=1.2.3=abc123".data).length -
          (pyLstrip ("  - foo=1.2.3=abc123".data)).length) ' ' ++
        takeBeforeSecondEq (pyLstrip ("  - foo=1.2.3=abc123".data))) :=
  C4_thm.1 ("  - foo=1.2.3=abc123".data) (by decide) (by decide)

/-- Claim C5, confirmed.  For every input text, every line starting with
the literal prefix `prefix:` is dropped by normalization and is absent
from the normalized output, regardless of the rest of the line content. -/
theorem C5_thm : ∀ (x line : List Char), pyStartswith line ("prefix:".data) = true →
    cleanLine line = none ∧ line ∉ clean_yml_content x := by
  intro x line h
  refine ⟨?_, ?_⟩
  · unfold cleanLine
    rw [if_pos h]
  · intro hmem
    obtain ⟨a, _, hca⟩ := List.mem_filterMap.mp hmem
    exact absurd h (by simp [cleanLine_prefixTest_false hca])

/-- Witness for the C5 theorem at a concrete prefix line. -/
theorem C5_wit :
    cleanLine ("prefix: /opt/conda/envs/demo".data) = none ∧
    ("prefix: /opt/conda/envs/demo".data) ∉
      clean_yml_content ("name: demo\nprefix: /opt/conda/envs/demo\n".data) :=
  C5_thm ("name: demo\nprefix: /opt/conda/envs/demo\n".data)
    ("prefix: /opt/conda/envs/demo".data) (by decide)

/-- Claim C6, confirmed.  For every invocation of the install-package
operation where the environment existence check fails (or the declaration
name is not resolvable), the launcher exits with code 1 without ever
invoking the install call; and in every run whatsoever, the install
command is only invoked after the existence check succeeded for the
resolved environment name. -/
theorem C6_thm :
    (∀ (w : World) (a : Args) (pkg : List Char), a.install = some pkg → pkg ≠ [] →
      installPrereqFails w →
      (mainRun w a).exitCode = 1 ∧
        ∀ n q, Event.condaInstall n q ∉ (mainRun w a).events)
  ∧ (∀ (w : World) (a : Args) (n q : List Char),
      Event.condaInstall n q ∈ (mainRun w a).events →
      get_environment_name w = some n ∧ n ≠ [] ∧ check_environment n w.envList = true) := by
  constructor
  · intro w a pkg hi hne hpre
    have hpe : pkg.isEmpty = false := isEmpty_false_of_ne_nil hne
    rcases hl : load_and_clean_environment_file w with ⟨o, b⟩
    cases o with
    | none => simp [mainRun, hl]
    | some c =>
      by_cases hcv : w.condaVersionOk = false
      · simp [mainRun, hl, mainBody, hcv]
      · have hsel : selectInstall w a = withMarker Event.branchInstall (installBranch w pkg) := by
          simp [selectInstall, hi, hpe]
        have hib := installBranch_prereq (w := w) pkg hpre
        constructor
        · simp [mainRun, hl, mainBody, hcv, hsel, withMarker, hib.1]
        · intro n q hmem
          simp [mainRun, hl, mainBody, hcv, hsel, withMarker] at hmem
          exact hib.2 n q hmem
  · intro w a n q hmem
    rcases hl : load_and_clean_environment_file w with ⟨o, b⟩
    cases o with
    | none => simp [mainRun, hl] at hmem
    | some c =>
      by_cases hcv : w.condaVersionOk = false
      · simp [mainRun, hl, mainBody, hcv] at hmem
      · simp [mainRun, hl, mainBody, hcv] at hmem
        exact condaInstall_mem_selectInstall hmem

/-- Witness for the C6 theorem: installing into a listing that lacks the
declared environment aborts without a `conda install` invocation. -/
theorem C6_wit :
    (mainRun wNoEnv aInstallNumpy).exitCode = 1 ∧
      ∀ n q, Event.condaInstall n q ∉ (mainRun wNoEnv aInstallNumpy).events :=
  C6_thm.1 wNoEnv aInstallNumpy ("numpy".data) rfl (by decide) (Or.inr (by decide))

/-- Claim C7, counterexample.  Two deviations from the claim as stated:
with `--install ''` (an explicit install flag whose package value is the
empty string, which is falsy in Python) together with a positional
command, the flag does not take precedence — the positional command
branch executes; and when a startup check fails (here: conda missing),
no reconciler branch executes at all, so it is not the case that exactly
one branch executes for every combination of arguments. -/
theorem C7_cex :
    branchMarkers (mainRun wAllOk
      { install := some [], uninstall := none, command := some Cmd.updateEnvironment }).events =
      [Event.branchCommand]
  ∧ branchMarkers (mainRun { wAllOk with condaVersionOk := false } aInstallNumpy).events = [] :=
  ⟨rfl, rfl⟩

/-- Claim C7, amended.  In every invocation that passes the startup steps
(environment file loaded and cleaned, conda present), exactly one
reconciler branch executes, chosen by precedence: a truthy (non-empty)
`--install` value first, then a truthy `--uninstall` value, then a
positional command argument, then the default create-or-launch behavior.
When a startup step fails, no branch executes. -/
theorem C7_thm (w : World) (a : Args) (h1 : w.envFile.isSome = true)
    (h2 : w.tempCreateOk = true) (h3 : w.tempWriteOk = true)
    (h4 : w.condaVersionOk = true) :
    branchMarkers (mainRun w a).events = [expectedMarker a] := by
  cases hf : w.envFile with
  | none => rw [hf] at h1; simp at h1
  | some content =>
    have hload : load_and_clean_environment_file w = (some (normalizeSnapshot content), true) := by
      simp [load_and_clean_environment_file, hf, h2, h3]
    have hsel : branchMarkers (mainRun w a).events = branchMarkers (selectInstall w a).2 := by
      simp [mainRun, hload, mainBody, h4, branchMarkers_cons, isMarker]
    rw [hsel, markers_selectInstall]

/-- Witness for the C7 theorem: a non-empty `--install` wins over a
positional command. -/
theorem C7_wit :
    branchMarkers (mainRun wAllOk
      { install := some ("numpy".data), uninstall := none,
        command := some Cmd.updateEnvironment }).events = [Event.branchInstall] :=
  C7_thm wAllOk _ rfl rfl rfl rfl

/-- Claim C8, confirmed.  `Config.update(key, value)` raises a key-not-found
error when the key is unknown to the defaults document; otherwise it
rewrites the user-override document to contain exactly the keys of the
defaults whose merged value differs from the default value, and in
particular updating a key with a value equal to its default omits that
key from the persisted override document. -/
theorem C8_thm {V : Type} [DecidableEq V] (base user : List (List Char × V))
    (key : List Char) (v : V) (hb : nodupKeysD base) :
    (containsKeyD base key = false → config_update base user key v = Except.error ())
  ∧ (∀ merged userData,
      config_update base user key v = Except.ok (merged, userData) →
      (∀ k, containsKeyD userData k = true ↔
        (containsKeyD base k = true ∧ lookupD merged k ≠ lookupD base k))
      ∧ (lookupD base key = some v → containsKeyD userData key = false)) := by
  constructor
  · intro h
    unfold config_update
    rw [if_pos h]
  · intro merged userData h
    unfold config_update at h
    by_cases hc : containsKeyD base key = false
    · rw [if_pos hc] at h
      exact absurd h (by simp)
    · rw [if_neg hc, Except.ok.injEq, Prod.mk.injEq] at h
      obtain ⟨hm, hu⟩ := h
      subst hm
      subst hu
      have hnm : nodupKeysD (setKey (dictUpdate base user) key v) :=
        nodup_setKey key v (nodup_dictUpdate user hb)
      constructor
      · intro k
        rw [contains_filter_iff hnm]
        constructor
        · rintro ⟨v2, hv2, hp⟩
          rw [Bool.and_eq_true] at hp
          obtain ⟨hcb, hdec⟩ := hp
          refine ⟨hcb, ?_⟩
          rw [hv2]
          intro hh
          exact (of_decide_eq_true hdec) hh.symm
        · rintro ⟨hcb, hne⟩
          have hcm : containsKeyD (setKey (dictUpdate base user) key v) k = true :=
            contains_setKey_of key v (contains_dictUpdate_left user hcb)
          rw [containsKeyD] at hcm
          rcases Option.isSome_iff_exists.mp hcm with ⟨v2, hv2⟩
          refine ⟨v2, hv2, ?_⟩
          rw [Bool.and_eq_true]
          refine ⟨hcb, decide_eq_true ?_⟩
          rw [hv2] at hne
          exact fun hh => hne hh.symm
      · intro hbv
        have hlm : lookupD (setKey (dictUpdate base user) key v) key = some v :=
          lookup_setKey_self _ _ _
        cases hud : containsKeyD ((setKey (dictUpdate base user) key v).filter
            (fun kv => containsKeyD base kv.1 && decide (lookupD base kv.1 ≠ some kv.2)))
            key with
        | false => rfl
        | true =>
          exfalso
          rcases (contains_filter_iff hnm _ key).mp hud with ⟨v2, hv2, hp⟩
          rw [hlm] at hv2
          have hv2e : v2 = v := by simpa using hv2.symm
          subst hv2e
          rw [Bool.and_eq_true] at hp
          exact (of_decide_eq_true hp.2) hbv

/-- Witness for the C8 theorem: setting `size` back to its default value
persists an empty override document. -/
theorem C8_wit :
    config_update cfgBase cfgUser ("size".data) 2 =
      Except.ok ([(("lang".data), 1), (("size".data), 2)], []) ∧
    containsKeyD ([] : List (List Char × Nat)) ("size".data) = false :=
  ⟨by rfl, ((C8_thm cfgBase cfgUser ("size".data) 2
    (show nodupKeysD cfgBase by unfold nodupKeysD; decide)).2
    [(("lang".data), 1), (("size".data), 2)] [] (by rfl)).2 (by decide)⟩

/-- Claim C9, confirmed.  `I18n.t(key)` returns the translation from the
active language table when the key is present there; otherwise it returns
the translation from the configured fallback language table when present
there; and when the key is absent from both tables it returns the key
itself rather than raising an error. -/
theorem C9_thm (st : I18nState) (key : List Char) :
    (∀ v, langLookup st st.current key = some v → I18n_t st key = v)
  ∧ (langLookup st st.current key = none →
      ∀ v, langLookup st st.fallback key = some v → I18n_t st key = v)
  ∧ (langLookup st st.current key = none → langLookup st st.fallback key = none →
      I18n_t st key = key) := by
  refine ⟨?_, ?_, ?_⟩
  · intro v h
    unfold I18n_t
    rw [h]
  · intro h1 v h2
    unfold I18n_t
    rw [h1, h2]
  · intro h1 h2
    unfold I18n_t
    rw [h1, h2]

/-- Witness for the C9 theorem: active-language hit, fallback hit, and
double miss at a concrete translation state. -/
theorem C9_wit :
    I18n_t st0 ("greet".data) = ("hola".data) ∧
    I18n_t st0 ("bye".data) = ("goodbye".data) ∧
    I18n_t st0 ("missing".data) = ("missing".data) :=
  ⟨(C9_thm st0 ("greet".data)).1 ("hola".data) rfl,
   (C9_thm st0 ("bye".data)).2.1 rfl ("goodbye".data) rfl,
   (C9_thm st0 ("missing".data)).2.2 rfl rfl⟩

/-- Claim C10, confirmed.  After every successful `Config.update` call,
every key written to the persisted user-override document exists in the
defaults document; any key present in the in-memory merged mapping but
absent from the defaults (for example a key loaded from a pre-existing
user-override file that the defaults do not define) is silently dropped
from the rewritten override file. -/
theorem C10_thm {V : Type} [DecidableEq V] (base user : List (List Char × V))
    (key : List Char) (v : V) (merged userData : List (List Char × V))
    (h : config_update base user key v = Except.ok (merged, userData)) :
    (∀ k, containsKeyD userData k = true → containsKeyD base k = true)
  ∧ (∀ k, containsKeyD base k = false → containsKeyD userData k = false) := by
  unfold config_update at h
  by_cases hc : containsKeyD base key = false
  · rw [if_pos hc] at h
    exact absurd h (by simp)
  · rw [if_neg hc, Except.ok.injEq, Prod.mk.injEq] at h
    obtain ⟨hm, hu⟩ := h
    subst hm
    subst hu
    have hfwd : ∀ k, containsKeyD ((setKey (dictUpdate base user) key v).filter
        (fun kv => containsKeyD base kv.1 && decide (lookupD base kv.1 ≠ some kv.2))) k = true →
        containsKeyD base k = true := by
      intro k hk
      rw [containsKeyD] at hk
      rcases Option.isSome_iff_exists.mp hk with ⟨v2, hv2⟩
      have hp := lookup_filter_some hv2
      rw [Bool.and_eq_true] at hp
      exact hp.1
    refine ⟨hfwd, fun k hbk => ?_⟩
    cases hud : containsKeyD ((setKey (dictUpdate base user) key v).filter
        (fun kv => containsKeyD base kv.1 && decide (lookupD base kv.1 ≠ some kv.2))) k with
    | false => rfl
    | true => exact absurd (hfwd k hud) (by simp [hbk])

/-- Witness for the C10 theorem: a stale key from the user-override file
is dropped by the rewrite. -/
theorem C10_wit :
    config_update cfgBase2 cfgUser2 ("lang".data) 7 =
      Except.ok ([(("lang".data), 7), (("stale".data), 5)], [(("lang".data), 7)]) ∧
    containsKeyD [(("lang".data), (7 : Nat))] ("stale".data) = false :=
  ⟨by rfl, (C10_thm cfgBase2 cfgUser2 ("lang".data) 7
    [(("lang".data), 7), (("stale".data), 5)] [(("lang".data), 7)] (by rfl)).2
    ("stale".data) (by decide)⟩
